import Mathlib

set_option maxRecDepth 8000

/-!
Verification of the WGCNA decision-log recorder and snapshot exporter.

This file gives a shallow embedding of the two scripts

  * `scripts/append_decision_log.py`   (the Decision Recorder), and
  * `scripts/export_resume_snapshot.py` (the Snapshot Exporter),

and proves the testable properties of the specification against it.

Modelling conventions:

  * A file on disk is `Option String`: `none` is a missing file, `some s`
    an existing file whose byte content decodes to the string `s`.
    The recorder's `log_path.stat().st_size > 0` check is modelled as
    `content ≠ ""` (a UTF-8 encoded string has zero bytes iff it is empty).
  * Python `str` values are Lean `String`s; `str.strip()`, `startswith`,
    `splitlines`, `"\n".join`, `split(" - ", 1)` and slicing are modelled
    by the `py*` functions below, faithful to CPython's semantics
    (including `\r\n` and the less common line-break and whitespace
    code points).
  * `datetime.now()` in the exporter is an injected parameter (`now`),
    and artifact paths are passed as their already-resolved display
    strings (path resolution is an external collaborator of the spec).
-/

/-- The code points CPython's `str.splitlines()` treats as line
boundaries (besides the two-character boundary `"\r\n"`). -/
def lineBreakChars : List Char :=
  ['\n', '\r', '\x0B', '\x0C', '\x1C', '\x1D', '\x1E', '\x85',
   '\u2028', '\u2029']

def isLineBreak (c : Char) : Bool := decide (c ∈ lineBreakChars)

/-- The code points CPython's `str.isspace()` (and hence no-argument
`str.strip()`) treats as whitespace. -/
def pySpaceChars : List Char :=
  [' ', '\t', '\n', '\r', '\x0B', '\x0C', '\x1C', '\x1D', '\x1E', '\x1F',
   '\x85', '\xA0', '\u1680', '\u2000', '\u2001', '\u2002', '\u2003', '\u2004',
   '\u2005', '\u2006', '\u2007', '\u2008', '\u2009', '\u200A', '\u2028',
   '\u2029', '\u202F', '\u205F', '\u3000']

def pyIsSpace (c : Char) : Bool := decide (c ∈ pySpaceChars)

/-- Remove leading whitespace from a character list (Python `lstrip`). -/
def lstripL (l : List Char) : List Char := l.dropWhile pyIsSpace

/-- Remove trailing whitespace from a character list (Python `rstrip`). -/
def rstripL : List Char → List Char
  | [] => []
  | c :: cs =>
    let r := rstripL cs
    if r.isEmpty then (if pyIsSpace c then [] else [c]) else c :: r

def stripL (l : List Char) : List Char := rstripL (lstripL l)

/-- Python `s.strip()`. -/
def pyStrip (s : String) : String := ⟨stripL s.data⟩

/-- `isLeadOf p l` is true when `p` is an initial segment of `l`. -/
def isLeadOf : List Char → List Char → Bool
  | [], _ => true
  | _ :: _, [] => false
  | a :: as, b :: bs => a == b && isLeadOf as bs

/-- Python `s.startswith(pre)`. -/
def pyStartswith (s pre : String) : Bool := isLeadOf pre.data s.data

/-- Python `s[n:]` (slicing counts code points, as Lean's `List.drop` does). -/
def pyDrop (n : Nat) (s : String) : String := ⟨s.data.drop n⟩

/-- Locate the first occurrence of `sep` in a character list, returning
the pieces before and after it (the core of Python `s.split(sep, 1)`
and of the `sep in s` test). -/
def findSplit (sep : List Char) : List Char → Option (List Char × List Char)
  | [] => if isLeadOf sep [] then some ([], []) else none
  | c :: rest =>
    if isLeadOf sep (c :: rest) then some ([], (c :: rest).drop sep.length)
    else
      match findSplit sep rest with
      | some (p, q) => some (c :: p, q)
      | none => none

/-- Python `str.splitlines()`: the worker loop, carrying the characters
of the current (unfinished) line in reverse order. -/
def slGo : List Char → List Char → List String
  | [], acc => if acc.isEmpty then [] else [⟨acc.reverse⟩]
  | c :: rest, acc =>
    if isLineBreak c then
      if c = '\r' then
        match rest with
        | c2 :: r =>
          if c2 = '\n' then ⟨acc.reverse⟩ :: slGo r []
          else ⟨acc.reverse⟩ :: slGo (c2 :: r) []
        | [] => [⟨acc.reverse⟩]
      else ⟨acc.reverse⟩ :: slGo rest []
    else slGo rest (c :: acc)

/-- Python `s.splitlines()`. -/
def pySplitlines (s : String) : List String := slGo s.data []

/-- Python `sep.join(parts)`. -/
def pyJoin (sep : String) : List String → String
  | [] => ""
  | [x] => x
  | x :: y :: xs => x ++ sep ++ pyJoin sep (y :: xs)

/-! ## The Decision Recorder (`append_decision_log.py`) -/

/-- The arguments of one recorder invocation (`build_entry`'s keyword
arguments, i.e. one `DecisionEntry`). -/
structure EntryArgs where
  timestamp : String
  stage : String
  approved_option : String
  rationale : String
  options_presented : List String
  deferred_risks : List String

/-- The bullet list produced by `_bulletize`, as a list of lines:
`f"- {v.strip()}" for v in values if v.strip()`. -/
def bulletLines (values : List String) : List String :=
  (values.filter (fun v => pyStrip v != "")).map (fun v => "- " ++ pyStrip v)

/-- `_bulletize(values)` from `append_decision_log.py`. -/
def bulletize (values : List String) : String := pyJoin "\n" (bulletLines values)

/-- `build_entry(...)` from `append_decision_log.py`. -/
def build_entry (a : EntryArgs) : String :=
  let options_block :=
    if bulletize a.options_presented = "" then "- [not provided]"
    else bulletize a.options_presented
  let risks_block :=
    if bulletize a.deferred_risks = "" then "- None noted"
    else bulletize a.deferred_risks
  pyJoin "\n"
    [ "## " ++ a.timestamp ++ " - " ++ a.stage,
      "",
      "### Options presented",
      options_block,
      "",
      "### Approved option",
      "- " ++ pyStrip a.approved_option,
      "",
      "### Rationale",
      pyStrip a.rationale,
      "",
      "### Deferred risks",
      risks_block,
      "" ]

/-- The fixed title header written by `ensure_header` on first creation. -/
def header : String := "# WGCNA Decision Log\n\n"

/-- `ensure_header(path)`: the file content after the call (creates the
header if the file did not exist, otherwise leaves it alone). -/
def ensure_header : Option String → String
  | none => header
  | some s => s

/-- One invocation of the recorder's `main` on a log file: run
`ensure_header`, then append (a separating `"\n"` when the file has
nonzero size, then the serialized entry). Returns the new file content. -/
def appendDecision (file : Option String) (a : EntryArgs) : String :=
  let content := ensure_header file
  content ++ (if content = "" then "" else "\n") ++ build_entry a

/-- A sequence of recorder invocations against the same log path. -/
def runAppends : Option String → List EntryArgs → Option String
  | file, [] => file
  | file, a :: as => runAppends (some (appendDecision file a)) as

/-! ## The Snapshot Exporter's parser (`export_resume_snapshot.py`) -/

/-- The stage extracted from an entry heading's text:
`h.split(" - ", 1)[1] if " - " in h else h`. -/
def stageOfHeading (h : String) : String :=
  match findSplit (" - ".data) h.data with
  | some (_, post) => ⟨post⟩
  | none => h

/-- The scan state of `parse_decisions`' loop. -/
structure ParseState where
  currentHeading : String
  currentStage : String
  approved : String
  captureApproved : Bool
  decisions : List (String × String × String)

/-- Close the currently open entry, if any (the
`if current_heading: decisions.append(...)` step, with
`approved or "[not recorded]"`). -/
def finalizeRec (st : ParseState) : List (String × String × String) :=
  if st.currentHeading = "" then []
  else [(st.currentHeading, st.currentStage,
         if st.approved = "" then "[not recorded]" else st.approved)]

/-- One iteration of `parse_decisions`' `for line in lines` loop. -/
def parseStep (st : ParseState) (line : String) : ParseState :=
  if pyStartswith line "## " then
    let heading := pyStrip (pyDrop 3 line)
    { currentHeading := heading,
      currentStage := stageOfHeading heading,
      approved := "",
      captureApproved := false,
      decisions := st.decisions ++ finalizeRec st }
  else if pyStrip line = "### Approved option" then
    { st with captureApproved := true }
  else if st.captureApproved && pyStartswith (pyStrip line) "- " then
    { st with approved := pyStrip (pyDrop 2 (pyStrip line)),
              captureApproved := false }
  else st

def initState : ParseState := ⟨"", "", "", false, []⟩

/-- `parse_decisions(log_path)`: `none` models a missing file (the
`if not log_path.exists(): return []` branch). -/
def parse_decisions (file : Option String) : List (String × String × String) :=
  match file with
  | none => []
  | some content =>
    let final := (pySplitlines content).foldl parseStep initState
    final.decisions ++ finalizeRec final

/-! ## The Snapshot Exporter's renderer -/

/-- The `lines` list built by `render_snapshot`, with the generation
timestamp injected and artifacts given as display strings. -/
def render_lines (now workspace output_path decision_log_path : String)
    (decisions : List (String × String × String))
    (artifacts : List String) : List String :=
  ["# WGCNA Resume Snapshot",
   "",
   "Generated: " ++ now,
   "Workspace: `" ++ workspace ++ "`",
   "Decision log: `" ++ decision_log_path ++ "`",
   "",
   "## Latest Decisions"]
  ++ (if decisions.isEmpty then ["- No parsed decisions found."]
      else (decisions.drop (decisions.length - 12)).map
        (fun d => "- `" ++ d.2.1 ++ "` -> " ++ d.2.2))
  ++ ["", "## Available Artifacts"]
  ++ (if artifacts.isEmpty then ["- No known artifacts found."]
      else artifacts.map (fun r => "- `" ++ r ++ "`"))
  ++ ["",
      "## Resume Prompt",
      "Use this prompt in a new Codex session:",
      "",
      "```text",
      "Use `" ++ output_path ++ "` and `" ++ decision_log_path
        ++ "` as context and continue from the latest completed stage.",
      "```",
      ""]

/-- `render_snapshot(...)` from `export_resume_snapshot.py`. -/
def render_snapshot (now workspace output_path decision_log_path : String)
    (decisions : List (String × String × String))
    (artifacts : List String) : String :=
  pyJoin "\n"
    (render_lines now workspace output_path decision_log_path decisions artifacts)

/-! ## Derived views and well-formedness predicates used by the theorems -/

/-- `linesData ls` is the character stream of a text file whose lines are
`ls`, each line terminated by `'\n'`. -/
def linesData : List String → List Char
  | [] => []
  | l :: ls => l.data ++ '\n' :: linesData ls

/-- The file content whose lines are `ls` (each newline-terminated). -/
def joinLines (ls : List String) : String := ⟨linesData ls⟩

/-- `s` contains no line-boundary character, i.e. it is a single line. -/
def noBreakStr (s : String) : Prop := ∀ c ∈ s.data, isLineBreak c = false

instance (s : String) : Decidable (noBreakStr s) := by
  unfold noBreakStr; infer_instance

/-- Concatenation of a list of line groups. -/
def catLists : List (List String) → List String
  | [] => []
  | g :: gs => g ++ catLists gs

/-- The "Options presented" block of an entry, as lines. -/
def optLines (a : EntryArgs) : List String :=
  if bulletLines a.options_presented = [] then ["- [not provided]"]
  else bulletLines a.options_presented

/-- The "Deferred risks" block of an entry, as lines. -/
def riskLines (a : EntryArgs) : List String :=
  if bulletLines a.deferred_risks = [] then ["- None noted"]
  else bulletLines a.deferred_risks

/-- The lines of one serialized entry block (the entry's trailing blank
component in `build_entry` only contributes the final newline and is not
a line of its own). -/
def entryLines (a : EntryArgs) : List String :=
  ["## " ++ a.timestamp ++ " - " ++ a.stage,
   "",
   "### Options presented"]
  ++ optLines a
  ++ ["",
      "### Approved option",
      "- " ++ pyStrip a.approved_option,
      "",
      "### Rationale",
      pyStrip a.rationale,
      "",
      "### Deferred risks"]
  ++ riskLines a

/-- The text appended to the (nonempty) log by a sequence of recorder
invocations: each entry is preceded by the separator newline that
`main` writes because the file already has nonzero size. -/
def entriesBlob : List EntryArgs → String
  | [] => ""
  | a :: as => "\n" ++ build_entry a ++ entriesBlob as

/-- The lines contributed to the log by a sequence of entries: each
entry block is preceded by one blank separator line. -/
def entriesList : List EntryArgs → List String
  | [] => []
  | a :: as => ("" :: entryLines a) ++ entriesList as

/-- Well-formedness of one recorder invocation's fields, sufficient for
the append/parse round trip: the timestamp is a nonempty whitespace-free
token, the stage is nonempty, already stripped and single-line, the
approved option is non-blank after trimming and single-line, the
rationale is single-line and does not collide with the parser's two
line triggers, and every list item is single-line. -/
def cleanEntry (a : EntryArgs) : Prop :=
  a.timestamp ≠ "" ∧
  (∀ c ∈ a.timestamp.data, pyIsSpace c = false) ∧
  a.stage ≠ "" ∧
  pyStrip a.stage = a.stage ∧
  noBreakStr a.stage ∧
  pyStrip a.approved_option ≠ "" ∧
  noBreakStr a.approved_option ∧
  noBreakStr a.rationale ∧
  pyStartswith (pyStrip a.rationale) "## " = false ∧
  pyStrip a.rationale ≠ "### Approved option" ∧
  (∀ v ∈ a.options_presented, noBreakStr v) ∧
  (∀ v ∈ a.deferred_risks, noBreakStr v)

instance (a : EntryArgs) : Decidable (cleanEntry a) := by
  unfold cleanEntry; infer_instance

/-- The record `parse_decisions` recovers for a cleanly appended entry. -/
def recordOf (a : EntryArgs) : String × String × String :=
  (a.timestamp ++ " - " ++ a.stage, a.stage, pyStrip a.approved_option)

/-- The heading texts of the lines that open an entry: lines starting
with `"## "` whose text after the marker is non-blank. -/
def goodHeads (ls : List String) : List String :=
  ls.filterMap (fun l =>
    if pyStartswith l "## " = true then
      (if pyStrip (pyDrop 3 l) = "" then none else some (pyStrip (pyDrop 3 l)))
    else none)

/-- The heading of the entry the scan currently has open, if any. -/
def openHead (st : ParseState) : List String :=
  if st.currentHeading = "" then [] else [st.currentHeading]

/-- A sample well-formed entry. -/
def entryA : EntryArgs :=
  ⟨"2024-01-01T00:00:00", "Gate A", "signed-hybrid, power=5",
   "Better fit-connectivity tradeoff.", [], []⟩

/-- A second sample well-formed entry. -/
def entryB : EntryArgs :=
  ⟨"2024-01-02T09:30:00", "Gate B", "keep defaults", "No outliers seen.",
   ["keep defaults", "drop sample S7"], ["batch effect unchecked"]⟩

/-- An entry whose fields are all non-empty but whose rationale contains
a line that begins with the heading marker. -/
def entryRogue : EntryArgs :=
  ⟨"2024-01-01T00:00:00", "S", "A", "## X", [], []⟩

/-- The bullet-cleanup example of the specification: options
`["  ", "Option A", ""]`. -/
def entryBullets : EntryArgs :=
  ⟨"2024-01-01T00:00:00", "Gate A", "opt", "why", ["  ", "Option A", ""], []⟩

/-- The `i`-th entry (1-based) of the 15-entry truncation scenario. -/
def mkSeqEntry (i : Nat) : EntryArgs :=
  ⟨"T" ++ toString (i + 1), "Stage " ++ toString (i + 1),
   "Option " ++ toString (i + 1), "because", [], []⟩

/-! ## Character classes -/

lemma pyIsSpace_of_isLineBreak {c : Char} (h : isLineBreak c = true) :
    pyIsSpace c = true := by
  simp only [isLineBreak, lineBreakChars, decide_eq_true_eq, List.mem_cons,
    List.mem_singleton, List.not_mem_nil, or_false] at h
  rcases h with rfl | rfl | rfl | rfl | rfl | rfl | rfl | rfl | rfl | rfl <;> decide

lemma isLineBreak_of_pyIsSpace {c : Char} (h : pyIsSpace c = false) :
    isLineBreak c = false := by
  cases hb : isLineBreak c with
  | false => rfl
  | true => rw [pyIsSpace_of_isLineBreak hb] at h; exact absurd h (by simp)

lemma ne_space_of_not_pyIsSpace {c : Char} (h : pyIsSpace c = false) : c ≠ ' ' := by
  rintro rfl; revert h; decide

/-! ## Strings as character lists -/

lemma data_eq_nil_iff {s : String} : s.data = [] ↔ s = "" :=
  ⟨fun h => String.ext h, fun h => by subst h; rfl⟩

lemma sapp_assoc (a b c : String) : a ++ b ++ c = a ++ (b ++ c) := by
  apply String.ext; simp [String.data_append]

lemma sapp_empty (a : String) : a ++ "" = a := by
  apply String.ext
  show a.data ++ ("" : String).data = a.data
  simp [show ("" : String).data = [] from rfl]

/-! ## `rstripL` and `lstripL` -/

lemma rstripL_cons (c : Char) (cs : List Char) :
    rstripL (c :: cs) =
      if (rstripL cs).isEmpty then (if pyIsSpace c then [] else [c])
      else c :: rstripL cs := rfl

lemma rstripL_lead : ∀ l : List Char, ∃ k, l = rstripL l ++ k := by
  intro l
  induction l with
  | nil => exact ⟨[], rfl⟩
  | cons c cs ih =>
    rcases ih with ⟨k, hk⟩
    rw [rstripL_cons]
    by_cases h : (rstripL cs).isEmpty
    · rw [if_pos h]
      by_cases hc : pyIsSpace c
      · exact ⟨c :: cs, by simp [hc]⟩
      · exact ⟨cs, by simp [hc]⟩
    · exact ⟨k, by rw [if_neg h, List.cons_append, ← hk]⟩

lemma rstripL_append (xs : List Char) :
    ∀ ys, rstripL ys ≠ [] → rstripL (xs ++ ys) = xs ++ rstripL ys := by
  induction xs with
  | nil => intro ys _; rfl
  | cons x xs ih =>
    intro ys hys
    have hne : rstripL (xs ++ ys) ≠ [] := by
      rw [ih ys hys]; simp [hys]
    rw [List.cons_append, rstripL_cons, if_neg (by simpa [List.isEmpty_iff] using hne),
      ih ys hys, List.cons_append]

lemma rstripL_singleton {c : Char} (h : pyIsSpace c = false) :
    rstripL [c] = [c] := by simp [rstripL, h]

lemma rstripL_last {c : Char} (h : pyIsSpace c = false) (xs : List Char) :
    rstripL (xs ++ [c]) = xs ++ [c] := by
  rw [rstripL_append xs [c] (by rw [rstripL_singleton h]; simp), rstripL_singleton h]

lemma rstripL_idem : ∀ l : List Char, rstripL (rstripL l) = rstripL l := by
  intro l
  induction l with
  | nil => rfl
  | cons c cs ih =>
    rw [rstripL_cons]
    by_cases h : (rstripL cs).isEmpty
    · rw [if_pos h]
      by_cases hc : pyIsSpace c
      · simp [hc, rstripL]
      · rw [if_neg hc, rstripL_singleton (by simpa using hc)]
    · rw [if_neg h, rstripL_cons, ih, if_neg h]

lemma rstripL_sublist (l : List Char) : List.Sublist (rstripL l) l := by
  rcases rstripL_lead l with ⟨k, hk⟩
  conv_rhs => rw [hk]
  exact List.sublist_append_left _ _

lemma lstripL_cons_of_not_space {c : Char} (h : pyIsSpace c = false) (xs : List Char) :
    lstripL (c :: xs) = c :: xs := by
  simp [lstripL, List.dropWhile_cons, h]

lemma lstripL_head : ∀ {l c t}, lstripL l = c :: t → pyIsSpace c = false := by
  intro l
  induction l with
  | nil => intro c t h; simp [lstripL] at h
  | cons x xs ih =>
    intro c t h
    by_cases hx : pyIsSpace x
    · exact ih (by simpa [lstripL, List.dropWhile_cons, hx] using h)
    · simp [lstripL, List.dropWhile_cons, hx] at h
      rw [← h.1]; simpa using hx

/-! ## `stripL` -/

lemma stripL_nil : stripL [] = [] := rfl

lemma stripL_sublist (l : List Char) : List.Sublist (stripL l) l :=
  (rstripL_sublist _).trans (List.dropWhile_sublist _)

lemma mem_of_mem_stripL {c : Char} {l : List Char} (h : c ∈ stripL l) : c ∈ l :=
  (stripL_sublist l).subset h

lemma strip_eq_self_parts {l : List Char} (h : stripL l = l) :
    lstripL l = l ∧ rstripL l = l := by
  have h1 : (stripL l).length ≤ (lstripL l).length := (rstripL_sublist _).length_le
  have h2 : (lstripL l).length ≤ l.length := (List.dropWhile_sublist _).length_le
  have hlen : (lstripL l).length = l.length := by rw [h] at h1; omega
  have hls : lstripL l = l := (List.dropWhile_sublist _).eq_of_length hlen
  exact ⟨hls, by rw [← h, stripL, hls]; exact rstripL_idem l⟩

lemma stripL_idem (l : List Char) : stripL (stripL l) = stripL l := by
  have hls : lstripL (stripL l) = stripL l := by
    cases hs : stripL l with
    | nil => rfl
    | cons c t =>
      have hc : pyIsSpace c = false := by
        rcases rstripL_lead (lstripL l) with ⟨k, hk⟩
        have : lstripL l = c :: (t ++ k) := by
          rw [hk, show rstripL (lstripL l) = stripL l from rfl, hs]; simp
        exact lstripL_head this
      exact lstripL_cons_of_not_space hc _
  show rstripL (lstripL (stripL l)) = stripL l
  rw [hls, show stripL l = rstripL (lstripL l) from rfl, rstripL_idem]

lemma stripL_cons_head {c : Char} (hc : pyIsSpace c = false) (xs : List Char) :
    ∃ t, stripL (c :: xs) = c :: t := by
  rw [stripL, lstripL_cons_of_not_space hc, rstripL_cons]
  by_cases h : (rstripL xs).isEmpty
  · exact ⟨[], by rw [if_pos h, if_neg (by simp [hc])]⟩
  · exact ⟨rstripL xs, by rw [if_neg h]⟩

lemma pyStrip_idem (s : String) : pyStrip (pyStrip s) = pyStrip s := by
  apply String.ext
  show stripL (stripL s.data) = stripL s.data
  exact stripL_idem s.data

/-! ## `isLeadOf` -/

lemma isLeadOf_append_self : ∀ (p rest : List Char), isLeadOf p (p ++ rest) = true := by
  intro p rest
  induction p with
  | nil => rfl
  | cons a as ih => simp [isLeadOf, ih]

lemma eq_append_of_isLeadOf : ∀ (p l : List Char), isLeadOf p l = true →
    l = p ++ l.drop p.length := by
  intro p
  induction p with
  | nil => intro l _; rfl
  | cons a as ih =>
    intro l h
    cases l with
    | nil => simp [isLeadOf] at h
    | cons b bs =>
      simp only [isLeadOf, Bool.and_eq_true, beq_iff_eq] at h
      rcases h with ⟨rfl, h2⟩
      simpa using ih bs h2

/-! ## `findSplit` -/

lemma findSplit_clean :
    ∀ (ts rest : List Char), (∀ c ∈ ts, c ≠ ' ') →
      findSplit [' ', '-', ' '] (ts ++ ' ' :: '-' :: ' ' :: rest) = some (ts, rest) := by
  intro ts
  induction ts with
  | nil =>
    intro rest _
    rw [List.nil_append, findSplit]
    have hlead : isLeadOf [' ', '-', ' '] (' ' :: '-' :: ' ' :: rest) = true := by
      simp [isLeadOf]
    rw [if_pos hlead]
    simp
  | cons c ts ih =>
    intro rest h
    have hc : c ≠ ' ' := h c (List.mem_cons_self c ts)
    have hlead : isLeadOf [' ', '-', ' '] (c :: (ts ++ ' ' :: '-' :: ' ' :: rest)) = false := by
      simp [isLeadOf, Ne.symm hc]
    rw [List.cons_append, findSplit, if_neg (by simp [hlead]),
      ih rest (fun d hd => h d (List.mem_cons_of_mem c hd))]

lemma findSplit_sound {sep : List Char} (hsep : sep ≠ []) :
    ∀ (l p q : List Char), findSplit sep l = some (p, q) →
      l = p ++ sep ++ q ∧ ∀ j < p.length, isLeadOf sep (l.drop j) = false := by
  intro l
  induction l with
  | nil =>
    intro p q h
    rcases sep with _ | ⟨a, as⟩
    · exact absurd rfl hsep
    · simp [findSplit, isLeadOf] at h
  | cons c rest ih =>
    intro p q h
    by_cases hl : isLeadOf sep (c :: rest) = true
    · rw [findSplit, if_pos hl] at h
      injection h with h
      injection h with h1 h2
      subst h1
      refine ⟨?_, by intro j hj; simp at hj⟩
      rw [← h2]
      simpa using eq_append_of_isLeadOf sep (c :: rest) hl
    · rw [findSplit, if_neg hl] at h
      cases hfs : findSplit sep rest with
      | none => rw [hfs] at h; simp at h
      | some pq =>
        rcases pq with ⟨p', q'⟩
        rw [hfs] at h
        simp only [Option.some.injEq, Prod.mk.injEq] at h
        obtain ⟨rfl, rfl⟩ := h
        rcases ih p' q' hfs with ⟨heq, hfirst⟩
        refine ⟨by simpa using congrArg (c :: ·) heq, ?_⟩
        intro j hj
        cases j with
        | zero => simpa using eq_false_of_ne_true hl
        | succ j =>
          simp only [List.length_cons, Nat.succ_lt_succ_iff] at hj
          simpa using hfirst j hj

lemma findSplit_none_complete (sep : List Char) :
    ∀ l, findSplit sep l = none → ∀ j, isLeadOf sep (l.drop j) = false := by
  intro l
  induction l with
  | nil =>
    intro h j
    have : isLeadOf sep [] = false := by
      by_contra hb
      rw [findSplit, if_pos (by simpa using hb)] at h
      exact absurd h (by simp)
    simpa [List.drop_nil] using this
  | cons c rest ih =>
    intro h j
    have hl : isLeadOf sep (c :: rest) = false := by
      by_contra hb
      rw [findSplit, if_pos (by simpa using hb)] at h
      exact absurd h (by simp)
    have hrest : findSplit sep rest = none := by
      rw [findSplit, if_neg (by simp [hl])] at h
      cases hfs : findSplit sep rest with
      | none => rfl
      | some pq => rw [hfs] at h; rcases pq with ⟨p', q'⟩; simp at h
    cases j with
    | zero => simpa using hl
    | succ j => simpa using ih hrest j

/-! ## `slGo` and `pySplitlines` -/

lemma slGo_nil (acc : List Char) :
    slGo [] acc = if acc.isEmpty then [] else [⟨acc.reverse⟩] := rfl

lemma slGo_cons_noBreak {c : Char} (h : isLineBreak c = false) (rest acc : List Char) :
    slGo (c :: rest) acc = slGo rest (c :: acc) := by
  rw [slGo.eq_def]
  simp [h]

lemma slGo_cons_newline (rest acc : List Char) :
    slGo ('\n' :: rest) acc = ⟨acc.reverse⟩ :: slGo rest [] := by
  rw [slGo.eq_def]
  have h1 : isLineBreak '\n' = true := by decide
  have h2 : ¬ ('\n' = '\r') := by decide
  simp [h1, h2]

lemma slGo_line {l : List Char} (hl : ∀ c ∈ l, isLineBreak c = false) :
    ∀ (acc rest : List Char),
      slGo (l ++ '\n' :: rest) acc = ⟨acc.reverse ++ l⟩ :: slGo rest [] := by
  induction l with
  | nil => intro acc rest; simpa using slGo_cons_newline rest acc
  | cons c l ih =>
    intro acc rest
    have hc : isLineBreak c = false := hl c (List.mem_cons_self c l)
    rw [List.cons_append, slGo_cons_noBreak hc,
      ih (fun d hd => hl d (List.mem_cons_of_mem c hd)) (c :: acc) rest]
    simp

lemma slGo_last {l : List Char} (hl : ∀ c ∈ l, isLineBreak c = false) :
    ∀ acc : List Char, (l ≠ [] ∨ acc ≠ []) → slGo l acc = [⟨acc.reverse ++ l⟩] := by
  induction l with
  | nil =>
    intro acc hacc
    rcases hacc with h | h
    · exact absurd rfl h
    · rw [slGo_nil, if_neg (by simpa [List.isEmpty_iff] using h)]; simp
  | cons c l ih =>
    intro acc _
    have hc : isLineBreak c = false := hl c (List.mem_cons_self c l)
    rw [slGo_cons_noBreak hc,
      ih (fun d hd => hl d (List.mem_cons_of_mem c hd)) (c :: acc) (Or.inr (by simp))]
    simp

lemma linesData_append : ∀ (a b : List String),
    linesData (a ++ b) = linesData a ++ linesData b := by
  intro a b
  induction a with
  | nil => rfl
  | cons l a ih => simp [linesData, ih]

lemma slGo_linesData : ∀ ls : List String, (∀ l ∈ ls, noBreakStr l) →
    slGo (linesData ls) [] = ls := by
  intro ls
  induction ls with
  | nil => intro _; rfl
  | cons l ls ih =>
    intro h
    show slGo (l.data ++ '\n' :: linesData ls) [] = l :: ls
    rw [slGo_line (h l (List.mem_cons_self l ls)) [] (linesData ls),
      ih (fun x hx => h x (List.mem_cons_of_mem l hx))]
    rfl

lemma pySplitlines_joinLines {ls : List String} (h : ∀ l ∈ ls, noBreakStr l) :
    pySplitlines (joinLines ls) = ls :=
  slGo_linesData ls h

/-! ## `pyJoin` -/

lemma pyJoin_cons_cons (sep x y : String) (xs : List String) :
    pyJoin sep (x :: y :: xs) = x ++ sep ++ pyJoin sep (y :: xs) := rfl

lemma pyJoin_append (sep : String) :
    ∀ (a b : List String), a ≠ [] → b ≠ [] →
      pyJoin sep (a ++ b) = pyJoin sep a ++ sep ++ pyJoin sep b := by
  intro a
  induction a with
  | nil => intro b h _; exact absurd rfl h
  | cons x a ih =>
    intro b _ hb
    cases a with
    | nil =>
      cases b with
      | nil => exact absurd rfl hb
      | cons y bs => rfl
    | cons x2 a' =>
      rw [List.cons_append, List.cons_append, pyJoin_cons_cons, pyJoin_cons_cons,
        ← List.cons_append, ih b (by simp) hb]
      simp only [sapp_assoc]

lemma pyJoin_data_newline : ∀ ls : List String, ls ≠ [] →
    (pyJoin "\n" ls).data ++ ['\n'] = linesData ls := by
  intro ls
  induction ls with
  | nil => intro h; exact absurd rfl h
  | cons x ls ih =>
    intro _
    cases ls with
    | nil => simp [pyJoin, linesData]
    | cons y ls' =>
      rw [pyJoin_cons_cons]
      show ((x ++ "\n" ++ pyJoin "\n" (y :: ls')).data ++ ['\n']) = linesData (x :: y :: ls')
      rw [String.data_append, String.data_append]
      show x.data ++ ('\n' :: []) ++ (pyJoin "\n" (y :: ls')).data ++ ['\n']
        = x.data ++ '\n' :: linesData (y :: ls')
      rw [List.append_assoc, List.append_assoc, ← ih (by simp)]
      simp

lemma pySplitlines_pyJoin {ls : List String}
    (h : ∀ l ∈ ls, noBreakStr l ∧ l ≠ "") :
    pySplitlines (pyJoin "\n" ls) = ls := by
  induction ls with
  | nil => rfl
  | cons x ls ih =>
    cases ls with
    | nil =>
      show slGo x.data [] = [x]
      rcases h x (by simp) with ⟨hnb, hne⟩
      rw [slGo_last hnb [] (Or.inl (by simpa [data_eq_nil_iff] using hne))]
      rfl
    | cons y ls' =>
      rw [pyJoin_cons_cons]
      show slGo (x ++ "\n" ++ pyJoin "\n" (y :: ls')).data [] = x :: y :: ls'
      rw [String.data_append, String.data_append]
      have hx := h x (by simp)
      rw [show ("\n" : String).data = ['\n'] from rfl, List.append_assoc, List.cons_append,
        List.nil_append, slGo_line hx.1 [] _]
      rw [show (⟨List.reverse [] ++ x.data⟩ : String) = x from rfl,
        show slGo (pyJoin "\n" (y :: ls')).data [] = pySplitlines (pyJoin "\n" (y :: ls'))
          from rfl,
        ih (fun l hl => h l (List.mem_cons_of_mem x hl))]

lemma catLists_cons_ne {g : List String} {gs : List (List String)} (h : g ≠ []) :
    catLists (g :: gs) ≠ [] := by
  show g ++ catLists gs ≠ []
  simp [h]

lemma pyJoin_groups : ∀ gs : List (List String), (∀ g ∈ gs, g ≠ []) →
    pyJoin "\n" (gs.map (pyJoin "\n")) = pyJoin "\n" (catLists gs) := by
  intro gs
  induction gs with
  | nil => intro _; rfl
  | cons g gs ih =>
    intro h
    cases gs with
    | nil => show pyJoin "\n" [pyJoin "\n" g] = pyJoin "\n" (g ++ []); simp [pyJoin]
    | cons g2 gs' =>
      have hg : g ≠ [] := h g (by simp)
      have hrest : catLists (g2 :: gs') ≠ [] := catLists_cons_ne (h g2 (by simp))
      rw [List.map_cons, show catLists (g :: g2 :: gs') = g ++ catLists (g2 :: gs') from rfl,
        pyJoin_append "\n" g _ hg hrest, ← ih (fun x hx => h x (List.mem_cons_of_mem g hx))]
      cases hmap : (g2 :: gs').map (pyJoin "\n") with
      | nil => simp at hmap
      | cons m ms => rw [pyJoin_cons_cons]

/-! ## Case lemmas for one parser step -/

lemma parseStep_heading {line : String} (h : pyStartswith line "## " = true)
    (st : ParseState) :
    parseStep st line =
      { currentHeading := pyStrip (pyDrop 3 line),
        currentStage := stageOfHeading (pyStrip (pyDrop 3 line)),
        approved := "",
        captureApproved := false,
        decisions := st.decisions ++ finalizeRec st } := by
  simp [parseStep, h]

lemma parseStep_title {line : String} (h1 : pyStartswith line "## " = false)
    (h2 : pyStrip line = "### Approved option") (st : ParseState) :
    parseStep st line = { st with captureApproved := true } := by
  simp [parseStep, h1, h2]

lemma parseStep_capture {line : String} (h1 : pyStartswith line "## " = false)
    (h2 : pyStrip line ≠ "### Approved option")
    (h3 : pyStartswith (pyStrip line) "- " = true)
    {st : ParseState} (hc : st.captureApproved = true) :
    parseStep st line =
      { st with approved := pyStrip (pyDrop 2 (pyStrip line)),
                captureApproved := false } := by
  simp [parseStep, h1, h2, h3, hc]

lemma parseStep_inert {line : String} (h1 : pyStartswith line "## " = false)
    (h2 : pyStrip line ≠ "### Approved option")
    (h3 : pyStartswith (pyStrip line) "- " = false) (st : ParseState) :
    parseStep st line = st := by
  simp [parseStep, h1, h2, h3]

lemma parseStep_inert_nocapture {line : String} (h1 : pyStartswith line "## " = false)
    (h2 : pyStrip line ≠ "### Approved option")
    {st : ParseState} (hc : st.captureApproved = false) :
    parseStep st line = st := by
  simp [parseStep, h1, h2, hc]

lemma parseStep_keeps {line : String} (h1 : pyStartswith line "## " = false)
    (st : ParseState) :
    (parseStep st line).decisions = st.decisions ∧
    (parseStep st line).currentHeading = st.currentHeading := by
  unfold parseStep
  rw [if_neg (by simp [h1])]
  split
  · exact ⟨rfl, rfl⟩
  · split
    · exact ⟨rfl, rfl⟩
    · exact ⟨rfl, rfl⟩

lemma parseStep_decisions_extend (st : ParseState) (line : String) :
    ∃ ds, (parseStep st line).decisions = st.decisions ++ ds := by
  by_cases h1 : pyStartswith line "## " = true
  · exact ⟨finalizeRec st, by rw [parseStep_heading h1]⟩
  · exact ⟨[], by rw [(parseStep_keeps (by simpa using h1) st).1, List.append_nil]⟩

lemma foldl_decisions_extend : ∀ (L : List String) (st : ParseState),
    ∃ ds, (List.foldl parseStep st L).decisions = st.decisions ++ ds := by
  intro L
  induction L with
  | nil => intro st; exact ⟨[], by simp⟩
  | cons l L ih =>
    intro st
    rcases parseStep_decisions_extend st l with ⟨ds1, h1⟩
    rcases ih (parseStep st l) with ⟨ds2, h2⟩
    exact ⟨ds1 ++ ds2, by rw [List.foldl_cons, h2, h1, List.append_assoc]⟩

lemma finalizeRec_heads (st : ParseState) :
    (finalizeRec st).map (fun r => r.1) = openHead st := by
  unfold finalizeRec openHead
  split <;> simp

/-! ## Heading bookkeeping over a whole scan (for the record-count claim) -/

lemma goodHeads_cons_heading {l : String} (h1 : pyStartswith l "## " = true)
    (L : List String) :
    goodHeads (l :: L) =
      (if pyStrip (pyDrop 3 l) = "" then [] else [pyStrip (pyDrop 3 l)]) ++ goodHeads L := by
  unfold goodHeads
  rw [List.filterMap_cons]
  by_cases hH : pyStrip (pyDrop 3 l) = "" <;> simp [h1, hH]

lemma goodHeads_cons_other {l : String} (h1 : pyStartswith l "## " = false)
    (L : List String) : goodHeads (l :: L) = goodHeads L := by
  unfold goodHeads
  rw [List.filterMap_cons]
  simp [h1]

lemma fold_heads : ∀ (L : List String) (st : ParseState),
    ((List.foldl parseStep st L).decisions
        ++ finalizeRec (List.foldl parseStep st L)).map (fun r => r.1) =
      st.decisions.map (fun r => r.1) ++ openHead st ++ goodHeads L := by
  intro L
  induction L with
  | nil =>
    intro st
    simp [goodHeads, List.map_append, finalizeRec_heads]
  | cons l L ih =>
    intro st
    rw [List.foldl_cons]
    by_cases h1 : pyStartswith l "## " = true
    · rw [parseStep_heading h1 st, ih, goodHeads_cons_heading h1]
      simp only [List.map_append, finalizeRec_heads, openHead]
      simp [List.append_assoc]
    · have h1' : pyStartswith l "## " = false := by simpa using h1
      rw [ih, goodHeads_cons_other h1']
      rcases parseStep_keeps h1' st with ⟨hdec, hhead⟩
      have ho : openHead (parseStep st l) = openHead st := by
        unfold openHead; rw [hhead]
      rw [hdec, ho]

/-! ## C5: empty-log tolerance -/

/-- **C5** (confirmed). Parsing a missing file (`none`) and parsing an
existing zero-byte file (`some ""`) both yield the empty record
sequence; in this total model neither raises. -/
theorem c5_empty_log_tolerance :
    parse_decisions none = [] ∧ parse_decisions (some "") = [] :=
  ⟨rfl, rfl⟩

/-! ## C8: the append-only frame property -/

lemma sapp_empty_left (a : String) : "" ++ a = a := by
  apply String.ext
  show ("" : String).data ++ a.data = a.data
  rw [show ("" : String).data = [] from rfl, List.nil_append]

lemma pyJoin_cons_data (sep x : String) (xs : List String) :
    ∃ t, (pyJoin sep (x :: xs)).data = x.data ++ t := by
  cases xs with
  | nil => exact ⟨[], by simp [pyJoin]⟩
  | cons y xs' =>
    exact ⟨sep.data ++ (pyJoin sep (y :: xs')).data,
      by rw [pyJoin_cons_cons, String.data_append, String.data_append, List.append_assoc]⟩

lemma build_entry_ne_empty (a : EntryArgs) : build_entry a ≠ "" := by
  intro h
  have hd := congrArg String.data h
  unfold build_entry at hd
  rcases pyJoin_cons_data "\n" ("## " ++ a.timestamp ++ " - " ++ a.stage) _ with ⟨t, ht⟩
  rw [ht] at hd
  rw [show ("" : String).data = [] from rfl] at hd
  rw [String.data_append, String.data_append, String.data_append] at hd
  simp at hd

/-- **C8** (confirmed). Appending to an existing log file (`some s`)
only ever extends it: the new content is the old content followed by a
nonempty suffix, so no previously written byte is edited or removed. -/
theorem c8_append_only_frame :
    ∀ (s : String) (a : EntryArgs),
      ∃ t, appendDecision (some s) a = s ++ t ∧ t ≠ "" := by
  intro s a
  by_cases hs : s = ""
  · subst hs
    refine ⟨build_entry a, ?_, build_entry_ne_empty a⟩
    show "" ++ (if ("" : String) = "" then "" else "\n") ++ build_entry a = "" ++ build_entry a
    rw [if_pos rfl]
    simp [sapp_empty_left]
  · refine ⟨"\n" ++ build_entry a, ?_, ?_⟩
    · show s ++ (if s = "" then "" else "\n") ++ build_entry a = s ++ ("\n" ++ build_entry a)
      rw [if_neg hs, sapp_assoc]
    · intro h
      have := congrArg String.data h
      rw [show ("" : String).data = [] from rfl, String.data_append] at this
      simp at this

/-! ## C3: heading split fidelity -/

/-- **C3** (confirmed). A heading line makes the parser set the stage to
the result of splitting the stripped heading text on the literal
`" - "`; the split really is at the *first* occurrence (no earlier
position of the text carries the separator), everything after it is the
stage, the heading text splits back as `before ++ " - " ++ stage`, and
when the separator is absent the whole heading text is the stage.  In
particular the heading `"## Gate C - power - signed"` parses with stage
`"power - signed"`. -/
theorem c3_heading_split_fidelity :
    (∀ (st : ParseState) (line : String), pyStartswith line "## " = true →
        (parseStep st line).currentHeading = pyStrip (pyDrop 3 line) ∧
        (parseStep st line).currentStage = stageOfHeading (pyStrip (pyDrop 3 line))) ∧
    (∀ (h : String) (p q : List Char), findSplit (" - ".data) h.data = some (p, q) →
        stageOfHeading h = ⟨q⟩ ∧ h.data = p ++ " - ".data ++ q ∧
        ∀ j < p.length, isLeadOf (" - ".data) (h.data.drop j) = false) ∧
    (∀ h : String, findSplit (" - ".data) h.data = none →
        stageOfHeading h = h ∧ ∀ j, isLeadOf (" - ".data) (h.data.drop j) = false) ∧
    parse_decisions (some "## Gate C - power - signed") =
      [("Gate C - power - signed", "power - signed", "[not recorded]")] := by
  refine ⟨?_, ?_, ?_, by decide⟩
  · intro st line h
    rw [parseStep_heading h st]
    exact ⟨rfl, rfl⟩
  · intro h p q hsplit
    refine ⟨?_, findSplit_sound (by decide) h.data p q hsplit⟩
    unfold stageOfHeading
    rw [hsplit]
  · intro h hnone
    refine ⟨?_, findSplit_none_complete _ h.data hnone⟩
    unfold stageOfHeading
    rw [hnone]

/-- Witness for C3: the theorem applied at concrete headings. -/
theorem c3_heading_split_fidelity_witness :
    stageOfHeading "Gate C - power - signed" = "power - signed" ∧
    stageOfHeading "GateA" = "GateA" ∧
    (parseStep initState "## Gate C - power - signed").currentStage =
      stageOfHeading (pyStrip (pyDrop 3 "## Gate C - power - signed")) := by
  refine ⟨?_, ?_, ?_⟩
  · exact (c3_heading_split_fidelity.2.1 "Gate C - power - signed"
      "Gate C".data "power - signed".data (by decide)).1
  · exact (c3_heading_split_fidelity.2.2.1 "GateA" (by decide)).1
  · exact (c3_heading_split_fidelity.1 initState "## Gate C - power - signed" (by decide)).2

/-! ## C9: the capture flag survives later section titles -/

/-- **C9** (confirmed). Once `"### Approved option"` has set the capture
flag, a line that is neither a heading nor a (stripped) bulleted line
leaves the flag set — in particular later section titles such as
`"### Rationale"` or `"### Deferred risks"` do not clear it, so the
first bullet anywhere after the title (even one in the deferred-risks
section) is recorded as the approved value, as the concrete log in the
second conjunct shows. -/
theorem c9_capture_flag_persists :
    (∀ (st : ParseState) (line : String), st.captureApproved = true →
        pyStartswith line "## " = false →
        pyStartswith (pyStrip line) "- " = false →
        (parseStep st line).captureApproved = true) ∧
    parse_decisions (some ("## T - S\n\n### Options presented\n- O\n\n"
        ++ "### Approved option\n\n### Rationale\nwhy\n\n### Deferred risks\n- R\n")) =
      [("T - S", "S", "R")] := by
  constructor
  · intro st line hc h1 h3
    unfold parseStep
    rw [if_neg (by simp [h1])]
    by_cases h2 : pyStrip line = "### Approved option"
    · rw [if_pos h2]
    · rw [if_neg h2, if_neg (by simp [h3])]
      exact hc
  · decide

/-- Witness for C9: the persistence part applied to a concrete state
and the section-title line `"### Rationale"`. -/
theorem c9_capture_flag_persists_witness :
    (parseStep ⟨"T - S", "S", "", true, []⟩ "### Rationale").captureApproved = true :=
  c9_capture_flag_persists.1 ⟨"T - S", "S", "", true, []⟩ "### Rationale" rfl
    (by decide) (by decide)

/-! ## C10: record count versus heading-marker lines -/

/-- **C10** (corrected). The records of `parse_decisions` correspond to
the lines that start with `"## "` *and* whose text after the marker is
non-blank: the sequence of record headings equals `goodHeads` of the
file's lines, in order (so the record count is the number of such
lines).  A line consisting of the bare marker `"## "` is counted by the
original claim but produces no record. -/
theorem c10_record_count :
    ∀ s : String,
      (parse_decisions (some s)).map (fun r => r.1) = goodHeads (pySplitlines s) ∧
      (parse_decisions (some s)).length = (goodHeads (pySplitlines s)).length := by
  intro s
  have h := fold_heads (pySplitlines s) initState
  have hmain : (parse_decisions (some s)).map (fun r => r.1) = goodHeads (pySplitlines s) := by
    show ((List.foldl parseStep initState (pySplitlines s)).decisions
        ++ finalizeRec (List.foldl parseStep initState (pySplitlines s))).map (fun r => r.1)
      = goodHeads (pySplitlines s)
    rw [h]
    simp [initState, openHead]
  refine ⟨hmain, ?_⟩
  have := congrArg List.length hmain
  simpa using this

/-- Counterexample for C10 as stated: the one-line file `"## "` has one
line starting with `"## "` but parses to zero records. -/
theorem c10_record_count_counterexample :
    ¬ ((parse_decisions (some "## ")).length =
        ((pySplitlines "## ").filter (fun l => pyStartswith l "## ")).length) := by
  decide

/-! ## Bulleted lines -/

lemma sdata_bullet (v : String) : ("- " ++ v).data = '-' :: ' ' :: v.data := by
  rw [String.data_append]; rfl

lemma bulletLines_mem {values : List String} {l : String} (h : l ∈ bulletLines values) :
    ∃ v ∈ values, pyStrip v ≠ "" ∧ l = "- " ++ pyStrip v := by
  unfold bulletLines at h
  simp only [List.mem_map, List.mem_filter, bne_iff_ne] at h
  rcases h with ⟨v, ⟨hv, hne⟩, rfl⟩
  exact ⟨v, hv, hne, rfl⟩

lemma strip_noBreak {s : String} (h : noBreakStr s) : noBreakStr (pyStrip s) :=
  fun c hc => h c (mem_of_mem_stripL hc)

lemma noBreak_bullet {v : String} (h : noBreakStr v) : noBreakStr ("- " ++ pyStrip v) := by
  intro c hc
  rw [sdata_bullet] at hc
  rcases List.mem_cons.1 hc with rfl | hc
  · decide
  rcases List.mem_cons.1 hc with rfl | hc
  · decide
  exact strip_noBreak h c hc

lemma bullet_ne_empty (v : String) : ("- " ++ v) ≠ "" := by
  intro h
  have := congrArg String.data h
  rw [sdata_bullet, show ("" : String).data = [] from rfl] at this
  exact absurd this (by simp)

lemma startswith_hh_bullet (v : String) : pyStartswith ("- " ++ v) "## " = false := by
  show isLeadOf "## ".data ("- " ++ v).data = false
  rw [sdata_bullet, show "## ".data = ['#', '#', ' '] from rfl]
  have hne : ('#' == '-') = false := by decide
  simp [isLeadOf, hne]

lemma strip_bullet_ne_title (v : String) :
    pyStrip ("- " ++ v) ≠ "### Approved option" := by
  intro h
  have hd := congrArg String.data h
  rw [show (pyStrip ("- " ++ v)).data = stripL ("- " ++ v).data from rfl,
    sdata_bullet] at hd
  rcases stripL_cons_head (by decide : pyIsSpace '-' = false) (' ' :: v.data) with ⟨t, ht⟩
  rw [ht] at hd
  have h2 : ('-' :: t).head? = some '#' := by
    rw [hd]; decide
  simp only [List.head?] at h2
  injection h2 with h3
  exact absurd h3 (by decide)

lemma parseStep_bullet_nocapture {v : String} {st : ParseState}
    (hc : st.captureApproved = false) : parseStep st ("- " ++ v) = st :=
  parseStep_inert_nocapture (startswith_hh_bullet v) (strip_bullet_ne_title v) hc

/-! ## The option and risk blocks -/

lemma optLines_ne (a : EntryArgs) : optLines a ≠ [] := by
  unfold optLines
  split
  · simp
  · next h => exact h

lemma riskLines_ne (a : EntryArgs) : riskLines a ≠ [] := by
  unfold riskLines
  split
  · simp
  · next h => exact h

lemma optLines_conds (a : EntryArgs) :
    ∀ l ∈ optLines a,
      pyStartswith l "## " = false ∧ pyStrip l ≠ "### Approved option" := by
  intro l hl
  unfold optLines at hl
  split at hl
  · rcases List.mem_singleton.1 hl with rfl
    exact ⟨by decide, by decide⟩
  · rcases bulletLines_mem hl with ⟨v, _, _, rfl⟩
    exact ⟨startswith_hh_bullet _, strip_bullet_ne_title _⟩

lemma riskLines_conds (a : EntryArgs) :
    ∀ l ∈ riskLines a,
      pyStartswith l "## " = false ∧ pyStrip l ≠ "### Approved option" := by
  intro l hl
  unfold riskLines at hl
  split at hl
  · rcases List.mem_singleton.1 hl with rfl
    exact ⟨by decide, by decide⟩
  · rcases bulletLines_mem hl with ⟨v, _, _, rfl⟩
    exact ⟨startswith_hh_bullet _, strip_bullet_ne_title _⟩

lemma foldl_inert_nocapture : ∀ (ls : List String) (st : ParseState),
    st.captureApproved = false →
    (∀ l ∈ ls, pyStartswith l "## " = false ∧ pyStrip l ≠ "### Approved option") →
    List.foldl parseStep st ls = st := by
  intro ls
  induction ls with
  | nil => intro st _ _; rfl
  | cons l ls ih =>
    intro st hc h
    rcases h l (List.mem_cons_self l ls) with ⟨h1, h2⟩
    rw [List.foldl_cons, parseStep_inert_nocapture h1 h2 hc,
      ih st hc (fun x hx => h x (List.mem_cons_of_mem l hx))]

/-! ## `bulletize` and `build_entry` as line lists -/

lemma bulletize_ne_empty {vs : List String} (h : bulletLines vs ≠ []) :
    bulletize vs ≠ "" := by
  intro he
  unfold bulletize at he
  cases hb : bulletLines vs with
  | nil => exact h hb
  | cons x xs =>
    rw [hb] at he
    rcases pyJoin_cons_data "\n" x xs with ⟨t, ht⟩
    have hd := congrArg String.data he
    rw [ht, show ("" : String).data = [] from rfl] at hd
    rcases List.append_eq_nil.1 hd with ⟨hx, _⟩
    rcases bulletLines_mem (hb ▸ List.mem_cons_self x xs) with ⟨v, _, _, rfl⟩
    rw [sdata_bullet] at hx
    exact absurd hx (by simp)

lemma options_block_eq (a : EntryArgs) :
    (if bulletize a.options_presented = "" then "- [not provided]"
     else bulletize a.options_presented) = pyJoin "\n" (optLines a) := by
  unfold optLines
  by_cases h : bulletLines a.options_presented = []
  · rw [if_pos h, if_pos (by unfold bulletize; rw [h]; rfl)]
    rfl
  · rw [if_neg h, if_neg (bulletize_ne_empty h)]
    rfl

lemma risks_block_eq (a : EntryArgs) :
    (if bulletize a.deferred_risks = "" then "- None noted"
     else bulletize a.deferred_risks) = pyJoin "\n" (riskLines a) := by
  unfold riskLines
  by_cases h : bulletLines a.deferred_risks = []
  · rw [if_pos h, if_pos (by unfold bulletize; rw [h]; rfl)]
    rfl
  · rw [if_neg h, if_neg (bulletize_ne_empty h)]
    rfl

lemma pyJoin_singleton (sep x : String) : pyJoin sep [x] = x := rfl

lemma build_entry_grouped (a : EntryArgs) :
    build_entry a =
      pyJoin "\n" (([["## " ++ a.timestamp ++ " - " ++ a.stage],
        [""], ["### Options presented"], optLines a, [""],
        ["### Approved option"], ["- " ++ pyStrip a.approved_option], [""],
        ["### Rationale"], [pyStrip a.rationale], [""],
        ["### Deferred risks"], riskLines a, [""]] :
          List (List String)).map (pyJoin "\n")) := by
  unfold build_entry
  simp only [List.map_cons, List.map_nil, pyJoin_singleton]
  rw [options_block_eq, risks_block_eq]

lemma build_entry_eq_joined (a : EntryArgs) :
    build_entry a = pyJoin "\n" (entryLines a ++ [""]) := by
  rw [build_entry_grouped, pyJoin_groups]
  · congr 1
    simp [catLists, entryLines, List.append_assoc]
  · intro g hg
    simp only [List.mem_cons, List.not_mem_nil, or_false] at hg
    rcases hg with rfl | rfl | rfl | rfl | rfl | rfl | rfl | rfl | rfl | rfl | rfl
      | rfl | rfl | rfl
    all_goals first
      | exact optLines_ne a
      | exact riskLines_ne a
      | simp

lemma entryLines_ne (a : EntryArgs) : entryLines a ≠ [] := by
  unfold entryLines
  simp

lemma build_entry_data (a : EntryArgs) :
    (build_entry a).data = linesData (entryLines a) := by
  rw [build_entry_eq_joined,
    pyJoin_append "\n" (entryLines a) [""] (entryLines_ne a) (by simp),
    pyJoin_singleton, sapp_empty,
    String.data_append, show ("\n" : String).data = ['\n'] from rfl,
    ← pyJoin_data_newline (entryLines a) (entryLines_ne a)]

/-! ## The whole log file's content and lines -/

lemma sapp_ne_left {s : String} (hs : s ≠ "") (t : String) : s ++ t ≠ "" := by
  intro h
  have hd := congrArg String.data h
  rw [String.data_append, show ("" : String).data = [] from rfl] at hd
  exact hs (data_eq_nil_iff.1 (List.append_eq_nil.1 hd).1)

lemma appendDecision_some {s : String} (hs : s ≠ "") (a : EntryArgs) :
    appendDecision (some s) a = s ++ "\n" ++ build_entry a := by
  show s ++ (if s = "" then "" else "\n") ++ build_entry a = s ++ "\n" ++ build_entry a
  rw [if_neg hs]

lemma appendDecision_none (a : EntryArgs) :
    appendDecision none a = header ++ "\n" ++ build_entry a := by
  show header ++ (if header = "" then "" else "\n") ++ build_entry a
    = header ++ "\n" ++ build_entry a
  rw [if_neg (by decide)]

lemma runAppends_some : ∀ (as : List EntryArgs) (s : String), s ≠ "" →
    runAppends (some s) as = some (s ++ entriesBlob as) := by
  intro as
  induction as with
  | nil => intro s _; rw [show entriesBlob [] = "" from rfl, sapp_empty]; rfl
  | cons a as ih =>
    intro s hs
    show runAppends (some (appendDecision (some s) a)) as = _
    rw [appendDecision_some hs a, ih _ (sapp_ne_left (sapp_ne_left hs "\n") _)]
    show _ = some (s ++ ("\n" ++ build_entry a ++ entriesBlob as))
    simp only [sapp_assoc]

lemma runAppends_none_cons (a : EntryArgs) (as : List EntryArgs) :
    runAppends none (a :: as) = some (header ++ entriesBlob (a :: as)) := by
  show runAppends (some (appendDecision none a)) as = _
  rw [appendDecision_none a,
    runAppends_some as _ (sapp_ne_left (sapp_ne_left (by decide : header ≠ "") "\n")
      (build_entry a))]
  show _ = some (header ++ ("\n" ++ build_entry a ++ entriesBlob as))
  simp only [sapp_assoc]

lemma blob_data : ∀ es : List EntryArgs,
    (entriesBlob es).data = linesData (entriesList es) := by
  intro es
  induction es with
  | nil => rfl
  | cons a as ih =>
    show ("\n" ++ build_entry a ++ entriesBlob as).data = _
    rw [String.data_append, String.data_append, build_entry_data, ih,
      show ("\n" : String).data = ['\n'] from rfl,
      show entriesList (a :: as) = "" :: (entryLines a ++ entriesList as) from rfl,
      show linesData ("" :: (entryLines a ++ entriesList as))
        = '\n' :: linesData (entryLines a ++ entriesList as) from rfl,
      linesData_append]
    simp

/-! ## Line cleanliness of serialized entries -/

lemma heading_line_data (a : EntryArgs) :
    ("## " ++ a.timestamp ++ " - " ++ a.stage).data =
      '#' :: '#' :: ' ' :: (a.timestamp.data ++ ' ' :: '-' :: ' ' :: a.stage.data) := by
  simp only [String.data_append, show "## ".data = ['#', '#', ' '] from rfl,
    show " - ".data = [' ', '-', ' '] from rfl, List.append_assoc]
  rfl

lemma entryLines_noBreak {a : EntryArgs} (hc : cleanEntry a) :
    ∀ l ∈ entryLines a, noBreakStr l := by
  obtain ⟨_, hts, _, _, hstg, _, happ, hrat, _, _, hopts, hrisks⟩ := hc
  have hopt : ∀ l ∈ optLines a, noBreakStr l := by
    intro l hl
    unfold optLines at hl
    split at hl
    · rcases List.mem_singleton.1 hl with rfl; decide
    · rcases bulletLines_mem hl with ⟨v, hv, _, rfl⟩
      exact noBreak_bullet (hopts v hv)
  have hrisk : ∀ l ∈ riskLines a, noBreakStr l := by
    intro l hl
    unfold riskLines at hl
    split at hl
    · rcases List.mem_singleton.1 hl with rfl; decide
    · rcases bulletLines_mem hl with ⟨v, hv, _, rfl⟩
      exact noBreak_bullet (hrisks v hv)
  have hhead : noBreakStr ("## " ++ a.timestamp ++ " - " ++ a.stage) := by
    intro c hcm
    rw [heading_line_data] at hcm
    rcases List.mem_cons.1 hcm with rfl | hcm
    · decide
    rcases List.mem_cons.1 hcm with rfl | hcm
    · decide
    rcases List.mem_cons.1 hcm with rfl | hcm
    · decide
    rcases List.mem_append.1 hcm with hcm | hcm
    · exact isLineBreak_of_pyIsSpace (hts c hcm)
    rcases List.mem_cons.1 hcm with rfl | hcm
    · decide
    rcases List.mem_cons.1 hcm with rfl | hcm
    · decide
    rcases List.mem_cons.1 hcm with rfl | hcm
    · decide
    exact hstg c hcm
  intro l hl
  unfold entryLines at hl
  rcases List.mem_append.1 hl with hl | hl
  swap
  · exact hrisk l hl
  rcases List.mem_append.1 hl with hl | hl
  swap
  · rcases List.mem_cons.1 hl with rfl | hl
    · decide
    rcases List.mem_cons.1 hl with rfl | hl
    · decide
    rcases List.mem_cons.1 hl with rfl | hl
    · exact noBreak_bullet happ
    rcases List.mem_cons.1 hl with rfl | hl
    · decide
    rcases List.mem_cons.1 hl with rfl | hl
    · decide
    rcases List.mem_cons.1 hl with rfl | hl
    · exact strip_noBreak hrat
    rcases List.mem_cons.1 hl with rfl | hl
    · decide
    rcases List.mem_cons.1 hl with rfl | hl
    · decide
    exact absurd hl (List.not_mem_nil l)
  rcases List.mem_cons.1 hl with rfl | hl
  · exact hhead
  rcases List.mem_cons.1 hl with rfl | hl
  · decide
  rcases List.mem_cons.1 hl with rfl | hl
  · decide
  exact hopt l hl

lemma entriesList_noBreak : ∀ (es : List EntryArgs), (∀ a ∈ es, cleanEntry a) →
    ∀ l ∈ entriesList es, noBreakStr l := by
  intro es
  induction es with
  | nil => intro _ l hl; simp [entriesList] at hl
  | cons a as ih =>
    intro h l hl
    rw [show entriesList (a :: as) = "" :: (entryLines a ++ entriesList as) from by
      show ("" :: entryLines a) ++ entriesList as = _; rw [List.cons_append]] at hl
    rcases List.mem_cons.1 hl with rfl | hl
    · decide
    rcases List.mem_append.1 hl with hl | hl
    · exact entryLines_noBreak (h a (List.mem_cons_self a as)) l hl
    · exact ih (fun x hx => h x (List.mem_cons_of_mem a hx)) l hl

lemma full_lines {es : List EntryArgs} (hclean : ∀ a ∈ es, cleanEntry a) :
    pySplitlines (header ++ entriesBlob es) =
      ["# WGCNA Decision Log", ""] ++ entriesList es := by
  show slGo (header ++ entriesBlob es).data [] = _
  rw [String.data_append, blob_data,
    show header.data = linesData ["# WGCNA Decision Log", ""] from rfl,
    ← linesData_append]
  apply slGo_linesData
  intro l hl
  rw [show (["# WGCNA Decision Log", ""] ++ entriesList es : List String)
      = "# WGCNA Decision Log" :: "" :: entriesList es from rfl] at hl
  rcases List.mem_cons.1 hl with rfl | hl
  · decide
  rcases List.mem_cons.1 hl with rfl | hl
  · decide
  exact entriesList_noBreak es hclean l hl

/-! ## Fixed lines are inert for the parser -/

lemma parseStep_blank (st : ParseState) : parseStep st "" = st :=
  parseStep_inert (by decide) (by decide) (by decide) st

lemma parseStep_opts_line (st : ParseState) :
    parseStep st "### Options presented" = st :=
  parseStep_inert (by decide) (by decide) (by decide) st

lemma parseStep_rationale_line (st : ParseState) :
    parseStep st "### Rationale" = st :=
  parseStep_inert (by decide) (by decide) (by decide) st

lemma parseStep_risks_line (st : ParseState) :
    parseStep st "### Deferred risks" = st :=
  parseStep_inert (by decide) (by decide) (by decide) st

lemma parseStep_title_line (st : ParseState) :
    parseStep st "### Approved option" = { st with captureApproved := true } :=
  parseStep_title (by decide) (by decide) st

lemma parseStep_log_title (st : ParseState) :
    parseStep st "# WGCNA Decision Log" = st :=
  parseStep_inert (by decide) (by decide) (by decide) st

/-! ## The heading line of a clean entry -/

lemma heading_startswith (a : EntryArgs) :
    pyStartswith ("## " ++ a.timestamp ++ " - " ++ a.stage) "## " = true := by
  show isLeadOf "## ".data _ = true
  rw [heading_line_data, show "## ".data = ['#', '#', ' '] from rfl]
  simp [isLeadOf]

lemma headingText_data (a : EntryArgs) :
    (a.timestamp ++ " - " ++ a.stage).data =
      a.timestamp.data ++ ' ' :: '-' :: ' ' :: a.stage.data := by
  simp only [String.data_append, show " - ".data = [' ', '-', ' '] from rfl,
    List.append_assoc]
  rfl

lemma headingText_strip {a : EntryArgs} (hts1 : a.timestamp ≠ "")
    (hts2 : ∀ c ∈ a.timestamp.data, pyIsSpace c = false)
    (hst1 : a.stage ≠ "") (hst2 : pyStrip a.stage = a.stage) :
    pyStrip (pyDrop 3 ("## " ++ a.timestamp ++ " - " ++ a.stage)) =
      a.timestamp ++ " - " ++ a.stage := by
  have hstage : rstripL a.stage.data = a.stage.data :=
    (strip_eq_self_parts (congrArg String.data hst2)).2
  have hstagene : a.stage.data ≠ [] := fun h => hst1 (data_eq_nil_iff.1 h)
  apply String.ext
  show stripL (List.drop 3 ("## " ++ a.timestamp ++ " - " ++ a.stage).data) = _
  rw [heading_line_data,
    show List.drop 3 ('#' :: '#' :: ' ' ::
      (a.timestamp.data ++ ' ' :: '-' :: ' ' :: a.stage.data)) =
      a.timestamp.data ++ ' ' :: '-' :: ' ' :: a.stage.data from rfl,
    headingText_data]
  cases hts : a.timestamp.data with
  | nil => exact absurd (data_eq_nil_iff.1 hts) hts1
  | cons c t =>
    have hcws : pyIsSpace c = false := hts2 c (by rw [hts]; exact List.mem_cons_self c t)
    rw [stripL, List.cons_append, lstripL_cons_of_not_space hcws, ← List.cons_append,
      show (c :: t) ++ ' ' :: '-' :: ' ' :: a.stage.data =
        ((c :: t) ++ [' ', '-', ' ']) ++ a.stage.data from by simp,
      rstripL_append _ _ (by rw [hstage]; exact hstagene), hstage]

lemma headingText_stage {a : EntryArgs}
    (hts2 : ∀ c ∈ a.timestamp.data, pyIsSpace c = false) :
    stageOfHeading (a.timestamp ++ " - " ++ a.stage) = a.stage := by
  unfold stageOfHeading
  rw [show " - ".data = [' ', '-', ' '] from rfl, headingText_data,
    findSplit_clean a.timestamp.data a.stage.data
      (fun c hc => ne_space_of_not_pyIsSpace (hts2 c hc))]

/-! ## The approved-option line of a clean entry -/

lemma approved_line_strip {X : String} (hXs : stripL X.data = X.data) (hXne : X ≠ "") :
    pyStrip ("- " ++ X) = "- " ++ X := by
  apply String.ext
  show stripL ("- " ++ X).data = ("- " ++ X).data
  have hXr : rstripL X.data = X.data := (strip_eq_self_parts hXs).2
  rw [sdata_bullet, stripL, lstripL_cons_of_not_space (by decide),
    show ('-' :: ' ' :: X.data) = ['-', ' '] ++ X.data from rfl,
    rstripL_append _ _ (by rw [hXr]; exact fun h => hXne (data_eq_nil_iff.1 h)), hXr]

lemma approved_capture_step {X : String} (hXs : stripL X.data = X.data) (hXne : X ≠ "")
    (st1 : ParseState) :
    parseStep { st1 with captureApproved := true } ("- " ++ X) =
      { st1 with approved := X, captureApproved := false } := by
  have hstrip := approved_line_strip hXs hXne
  have h3 : pyStartswith (pyStrip ("- " ++ X)) "- " = true := by
    rw [hstrip]
    show isLeadOf "- ".data ("- " ++ X).data = true
    rw [sdata_bullet, show "- ".data = ['-', ' '] from rfl]
    simp [isLeadOf]
  rw [parseStep_capture (startswith_hh_bullet X) (strip_bullet_ne_title X) h3 rfl]
  have hdrop : pyDrop 2 ("- " ++ X) = X := by
    apply String.ext
    show List.drop 2 ("- " ++ X).data = X.data
    rw [sdata_bullet]
    rfl
  rw [hstrip, hdrop, show pyStrip X = X from String.ext hXs]

/-! ## Scanning one cleanly serialized entry -/

lemma fold_approved_block {a : EntryArgs}
    (hr1 : pyStartswith (pyStrip a.rationale) "## " = false)
    (hr2 : pyStrip a.rationale ≠ "### Approved option")
    (hXs : stripL (pyStrip a.approved_option).data = (pyStrip a.approved_option).data)
    (hXne : pyStrip a.approved_option ≠ "")
    (st1 : ParseState) :
    List.foldl parseStep st1
      ["", "### Approved option", "- " ++ pyStrip a.approved_option, "",
       "### Rationale", pyStrip a.rationale, "", "### Deferred risks"] =
      { st1 with approved := pyStrip a.approved_option, captureApproved := false } := by
  have hr2' : pyStrip (pyStrip a.rationale) ≠ "### Approved option" := by
    rw [pyStrip_idem]; exact hr2
  simp only [List.foldl_cons, List.foldl_nil]
  rw [parseStep_blank st1, parseStep_title_line st1, approved_capture_step hXs hXne st1]
  generalize hS : (ParseState.mk st1.currentHeading st1.currentStage
    (pyStrip a.approved_option) false st1.decisions) = S
  have hSc : S.captureApproved = false := by rw [← hS]
  rw [parseStep_blank S, parseStep_rationale_line S,
    parseStep_inert_nocapture hr1 hr2' hSc, parseStep_blank S, parseStep_risks_line S]

lemma fold_entry {a : EntryArgs} (hc : cleanEntry a) (st : ParseState) :
    List.foldl parseStep st ("" :: entryLines a) =
      { currentHeading := a.timestamp ++ " - " ++ a.stage,
        currentStage := a.stage,
        approved := pyStrip a.approved_option,
        captureApproved := false,
        decisions := st.decisions ++ finalizeRec st } := by
  obtain ⟨hts1, hts2, hst1, hst2, _, hXne, _, _, hr1, hr2, _, _⟩ := hc
  have hXs : stripL (pyStrip a.approved_option).data = (pyStrip a.approved_option).data :=
    stripL_idem a.approved_option.data
  rw [List.foldl_cons, parseStep_blank st]
  show List.foldl parseStep st
    ((["## " ++ a.timestamp ++ " - " ++ a.stage, "", "### Options presented"]
        ++ optLines a
        ++ ["", "### Approved option", "- " ++ pyStrip a.approved_option, "",
            "### Rationale", pyStrip a.rationale, "", "### Deferred risks"]
        ++ riskLines a) : List String) = _
  rw [List.foldl_append, List.foldl_append, List.foldl_append]
  rw [show List.foldl parseStep st
      ["## " ++ a.timestamp ++ " - " ++ a.stage, "", "### Options presented"] =
      List.foldl parseStep
        (parseStep st ("## " ++ a.timestamp ++ " - " ++ a.stage))
        ["", "### Options presented"] from rfl,
    parseStep_heading (heading_startswith a) st,
    headingText_strip hts1 hts2 hst1 hst2, headingText_stage hts2]
  rw [show List.foldl parseStep
      { currentHeading := a.timestamp ++ " - " ++ a.stage,
        currentStage := a.stage, approved := "", captureApproved := false,
        decisions := st.decisions ++ finalizeRec st } ["", "### Options presented"] =
      { currentHeading := a.timestamp ++ " - " ++ a.stage,
        currentStage := a.stage, approved := "", captureApproved := false,
        decisions := st.decisions ++ finalizeRec st } from by
    simp only [List.foldl_cons, List.foldl_nil]
    rw [parseStep_blank, parseStep_opts_line]]
  rw [foldl_inert_nocapture (optLines a) _ rfl (optLines_conds a),
    fold_approved_block hr1 hr2 hXs hXne,
    foldl_inert_nocapture (riskLines a) _ rfl (riskLines_conds a)]

lemma fold_entries : ∀ (es : List EntryArgs) (st : ParseState),
    (∀ a ∈ es, cleanEntry a) →
    (List.foldl parseStep st (entriesList es)).decisions
        ++ finalizeRec (List.foldl parseStep st (entriesList es)) =
      st.decisions ++ finalizeRec st ++ es.map recordOf := by
  intro es
  induction es with
  | nil =>
    intro st _
    show st.decisions ++ finalizeRec st = st.decisions ++ finalizeRec st ++ []
    rw [List.append_nil]
  | cons a as ih =>
    intro st h
    have hca := h a (List.mem_cons_self a as)
    have hH : a.timestamp ++ " - " ++ a.stage ≠ "" :=
      sapp_ne_left (sapp_ne_left hca.1 _) _
    have hX : pyStrip a.approved_option ≠ "" := hca.2.2.2.2.2.1
    rw [show entriesList (a :: as) = ("" :: entryLines a) ++ entriesList as from rfl,
      List.foldl_append, fold_entry hca st,
      ih _ (fun x hx => h x (List.mem_cons_of_mem a hx))]
    have hfin : finalizeRec (ParseState.mk (a.timestamp ++ " - " ++ a.stage) a.stage
        (pyStrip a.approved_option) false (st.decisions ++ finalizeRec st))
        = [recordOf a] := by
      unfold finalizeRec
      rw [if_neg hH, if_neg hX]
      rfl
    rw [show (ParseState.mk (a.timestamp ++ " - " ++ a.stage) a.stage
        (pyStrip a.approved_option) false (st.decisions ++ finalizeRec st)).decisions
        = st.decisions ++ finalizeRec st from rfl, hfin]
    rw [List.map_cons, List.append_assoc, List.append_assoc, List.append_assoc]
    rfl

/-! ## C1: the round trip -/

/-- **C1** (corrected). Round trip for well-formed entries: appending
any sequence of `cleanEntry` invocations to a fresh log and parsing the
result yields exactly one record per entry, in order, whose heading is
`timestamp ++ " - " ++ stage`, whose stage is the appended stage, and
whose approved value is the appended option after whitespace trimming.
(No distinctness of `(stage, approvedOption)` pairs is needed.)  For
arbitrary non-empty free text the original claim fails — see the
counterexample, where a rationale containing a line that starts with
`"## "` produces a spurious extra record. -/
theorem c1_round_trip :
    ∀ entries : List EntryArgs, (∀ a ∈ entries, cleanEntry a) →
      parse_decisions (runAppends none entries) = entries.map recordOf ∧
      (parse_decisions (runAppends none entries)).length = entries.length := by
  intro entries h
  have hmain : parse_decisions (runAppends none entries) = entries.map recordOf := by
    cases entries with
    | nil => rfl
    | cons a as =>
      rw [runAppends_none_cons]
      show (List.foldl parseStep initState
            (pySplitlines (header ++ entriesBlob (a :: as)))).decisions
          ++ finalizeRec (List.foldl parseStep initState
            (pySplitlines (header ++ entriesBlob (a :: as))))
        = (a :: as).map recordOf
      rw [full_lines h,
        show (["# WGCNA Decision Log", ""] ++ entriesList (a :: as) : List String)
          = "# WGCNA Decision Log" :: "" :: entriesList (a :: as) from rfl,
        List.foldl_cons, parseStep_log_title, List.foldl_cons, parseStep_blank,
        fold_entries (a :: as) initState h]
      rfl
  exact ⟨hmain, by rw [hmain, List.length_map]⟩

/-- Counterexample to C1 as stated: `entryRogue` has non-empty stage,
approved option and rationale, but its rationale is the line `"## X"`,
so the single appended entry parses back as two records, not one. -/
theorem c1_round_trip_counterexample :
    (parse_decisions (runAppends none [entryRogue])).length = 2 ∧
    ¬ ((parse_decisions (runAppends none [entryRogue])).length = 1) := by
  decide

/-- Witness for C1: the amended round trip applied to two concrete
well-formed entries. -/
theorem c1_round_trip_witness :
    (∀ a ∈ [entryA, entryB], cleanEntry a) ∧
    parse_decisions (runAppends none [entryA, entryB]) =
      [entryA, entryB].map recordOf :=
  ⟨by decide, (c1_round_trip [entryA, entryB] (by decide)).1⟩

/-! ## C2: separator insertion -/

/-- **C2** (corrected). On a path that does not exist, `ensure_header`
first creates the file with the title header and blank line; since that
makes the file size nonzero, the recorder then writes a separator blank
line even before the *first* entry, so the fresh-log content is
`header ++ "\n" ++ entry` and two blank lines stand between the title
and the first heading.  When the file already has nonzero size, exactly
one separator `"\n"` is written before the new entry; only an existing
zero-byte file receives an entry with no separator. -/
theorem c2_separator_insertion :
    ∀ (a : EntryArgs) (s : String),
      appendDecision none a = header ++ "\n" ++ build_entry a ∧
      (s ≠ "" → appendDecision (some s) a = s ++ "\n" ++ build_entry a) ∧
      appendDecision (some "") a = build_entry a ∧
      (cleanEntry a → (pySplitlines (appendDecision none a)).take 4 =
        ["# WGCNA Decision Log", "", "", "## " ++ a.timestamp ++ " - " ++ a.stage]) := by
  intro a s
  refine ⟨appendDecision_none a, fun hs => appendDecision_some hs a, ?_, ?_⟩
  · show "" ++ (if ("" : String) = "" then "" else "\n") ++ build_entry a = build_entry a
    rw [if_pos rfl, sapp_empty, sapp_empty_left]
  · intro hc
    rw [appendDecision_none a]
    have hdata : (header ++ "\n" ++ build_entry a).data
        = linesData ("# WGCNA Decision Log" :: "" :: "" :: entryLines a) := by
      rw [String.data_append, String.data_append, build_entry_data]
      rfl
    have hlines : pySplitlines (header ++ "\n" ++ build_entry a)
        = "# WGCNA Decision Log" :: "" :: "" :: entryLines a := by
      show slGo (header ++ "\n" ++ build_entry a).data [] = _
      rw [hdata]
      apply slGo_linesData
      intro l hl
      rcases List.mem_cons.1 hl with rfl | hl
      · decide
      rcases List.mem_cons.1 hl with rfl | hl
      · decide
      rcases List.mem_cons.1 hl with rfl | hl
      · decide
      exact entryLines_noBreak hc l hl
    rw [hlines]
    rfl

/-- Counterexample to C2 as stated: on a fresh (missing) log, the first
entry is *not* appended directly after the header — a separator newline
intervenes. -/
theorem c2_separator_insertion_counterexample :
    appendDecision none entryA ≠ header ++ build_entry entryA ∧
    appendDecision none entryA = header ++ "\n" ++ build_entry entryA := by
  decide

/-- Witness for C2: the separator theorem applied to a concrete entry,
an existing nonempty log `"x"`, and the fresh-log line shape. -/
theorem c2_separator_insertion_witness :
    appendDecision (some "x") entryA = "x" ++ "\n" ++ build_entry entryA ∧
    (pySplitlines (appendDecision none entryA)).take 4 =
      ["# WGCNA Decision Log", "", "",
       "## " ++ entryA.timestamp ++ " - " ++ entryA.stage] :=
  ⟨(c2_separator_insertion entryA "x").2.1 (by decide),
   (c2_separator_insertion entryA "x").2.2.2 (by decide)⟩

/-! ## C4: missing-approval tolerance -/

/-- **C4** (confirmed). An entry block whose heading is followed (up to
the next heading or the end of input) by lines that never carry the
`"### Approved option"` title — in particular one that still has an
"Options presented" section — parses to a record whose approved value
is the placeholder `"[not recorded]"`; this holds both when the block
ends the file and when another heading follows it. -/
theorem c4_missing_approval_tolerance :
    ∀ (hline hline2 : String) (body rest : List String),
      pyStartswith hline "## " = true →
      pyStrip (pyDrop 3 hline) ≠ "" →
      "### Options presented" ∈ body →
      (∀ l ∈ body, pyStartswith l "## " = false ∧ pyStrip l ≠ "### Approved option") →
      (∀ l ∈ hline :: (body ++ hline2 :: rest), noBreakStr l) →
      pyStartswith hline2 "## " = true →
      parse_decisions (some (joinLines (hline :: body))) =
        [(pyStrip (pyDrop 3 hline), stageOfHeading (pyStrip (pyDrop 3 hline)),
          "[not recorded]")] ∧
      (parse_decisions (some (joinLines (hline :: (body ++ hline2 :: rest))))).head? =
        some (pyStrip (pyDrop 3 hline), stageOfHeading (pyStrip (pyDrop 3 hline)),
          "[not recorded]") := by
  intro hline hline2 body rest h1 hH _ hbody hnb h2
  have hnb1 : ∀ l ∈ hline :: body, noBreakStr l := by
    intro l hl
    rcases List.mem_cons.1 hl with rfl | hl
    · exact hnb l (List.mem_cons_self _ _)
    · exact hnb l (List.mem_cons_of_mem _ (List.mem_append_left _ hl))
  have hst1 : List.foldl parseStep initState (hline :: body) =
      ParseState.mk (pyStrip (pyDrop 3 hline))
        (stageOfHeading (pyStrip (pyDrop 3 hline))) "" false [] := by
    rw [List.foldl_cons, parseStep_heading h1 initState,
      foldl_inert_nocapture body _ rfl hbody]
    rfl
  have hfin1 : finalizeRec (ParseState.mk (pyStrip (pyDrop 3 hline))
      (stageOfHeading (pyStrip (pyDrop 3 hline))) "" false []) =
      [(pyStrip (pyDrop 3 hline), stageOfHeading (pyStrip (pyDrop 3 hline)),
        "[not recorded]")] := by
    unfold finalizeRec
    rw [if_neg hH]
    rfl
  constructor
  · show (List.foldl parseStep initState (pySplitlines (joinLines (hline :: body)))).decisions
        ++ finalizeRec (List.foldl parseStep initState
          (pySplitlines (joinLines (hline :: body)))) = _
    rw [pySplitlines_joinLines hnb1, hst1, hfin1]
    rfl
  · show ((List.foldl parseStep initState
        (pySplitlines (joinLines (hline :: (body ++ hline2 :: rest))))).decisions
        ++ finalizeRec (List.foldl parseStep initState
          (pySplitlines (joinLines (hline :: (body ++ hline2 :: rest)))))).head? = _
    rw [pySplitlines_joinLines hnb,
      show hline :: (body ++ hline2 :: rest) = (hline :: body) ++ hline2 :: rest from rfl,
      List.foldl_append, hst1, List.foldl_cons, parseStep_heading h2, hfin1]
    rcases foldl_decisions_extend rest (ParseState.mk (pyStrip (pyDrop 3 hline2))
        (stageOfHeading (pyStrip (pyDrop 3 hline2))) "" false
        ([] ++ [(pyStrip (pyDrop 3 hline), stageOfHeading (pyStrip (pyDrop 3 hline)),
          "[not recorded]")])) with ⟨ds', hds⟩
    rw [hds]
    rfl

/-- Witness for C4: the theorem applied to a concrete entry block with
an options section and no approved-option section, once at end of file
and once followed by a second heading. -/
theorem c4_missing_approval_tolerance_witness :
    parse_decisions (some (joinLines ("## 2024 - Gate A" ::
        ["", "### Options presented", "- O1", ""]))) =
      [(pyStrip (pyDrop 3 "## 2024 - Gate A"),
        stageOfHeading (pyStrip (pyDrop 3 "## 2024 - Gate A")), "[not recorded]")] ∧
    (parse_decisions (some (joinLines ("## 2024 - Gate A" ::
        (["", "### Options presented", "- O1", ""] ++ "## 2024 - Gate B" :: []))))).head? =
      some (pyStrip (pyDrop 3 "## 2024 - Gate A"),
        stageOfHeading (pyStrip (pyDrop 3 "## 2024 - Gate A")), "[not recorded]") :=
  c4_missing_approval_tolerance "## 2024 - Gate A" "## 2024 - Gate B"
    ["", "### Options presented", "- O1", ""] [] (by decide) (by decide)
    (by decide) (by decide) (by decide) (by decide)

/-! ## C7: bullet cleanup and empty-list placeholders -/

/-- **C7** (confirmed). `_bulletize` writes one bullet line per item
that is non-blank after trimming — the bullet is `"- "` plus the
trimmed item, and blank-after-trim items produce no line at all; an
empty-after-cleanup options list renders as the single line
`"- [not provided]"` and an empty risks list as `"- None noted"`.  The
concrete entry with options `["  ", "Option A", ""]` serializes with
exactly the one bullet `"- Option A"` in its "Options presented"
section. -/
theorem c7_bullet_cleanup :
    (∀ vs : List String, (∀ v ∈ vs, noBreakStr v) →
        pySplitlines (bulletize vs) =
          (vs.filter (fun v => pyStrip v != "")).map (fun v => "- " ++ pyStrip v)) ∧
    (∀ vs : List String, (bulletize vs = "" ↔ bulletLines vs = [])) ∧
    pySplitlines (build_entry entryBullets) =
      ["## 2024-01-01T00:00:00 - Gate A", "", "### Options presented", "- Option A",
       "", "### Approved option", "- opt", "", "### Rationale", "why", "",
       "### Deferred risks", "- None noted"] ∧
    pySplitlines (build_entry entryA) =
      ["## 2024-01-01T00:00:00 - Gate A", "", "### Options presented",
       "- [not provided]", "", "### Approved option", "- signed-hybrid, power=5", "",
       "### Rationale", "Better fit-connectivity tradeoff.", "",
       "### Deferred risks", "- None noted"] := by
  refine ⟨?_, ?_, by decide, by decide⟩
  · intro vs h
    show pySplitlines (pyJoin "\n" (bulletLines vs)) = bulletLines vs
    apply pySplitlines_pyJoin
    intro l hl
    rcases bulletLines_mem hl with ⟨v, hv, _, rfl⟩
    exact ⟨noBreak_bullet (h v hv), bullet_ne_empty _⟩
  · intro vs
    constructor
    · intro he
      by_contra hb
      exact bulletize_ne_empty hb he
    · intro hb
      unfold bulletize
      rw [hb]
      rfl

/-- Witness for C7: the bullet-line description applied to the
specification's example list `["  ", "Option A", ""]`. -/
theorem c7_bullet_cleanup_witness :
    (∀ v ∈ ["  ", "Option A", ""], noBreakStr v) ∧
    pySplitlines (bulletize ["  ", "Option A", ""]) =
      ((["  ", "Option A", ""].filter (fun v => pyStrip v != "")).map
        (fun v => "- " ++ pyStrip v)) :=
  ⟨by decide, c7_bullet_cleanup.1 ["  ", "Option A", ""] (by decide)⟩

/-! ## C6: truncation to the last 12 decisions -/

/-- **C6** (confirmed). The "Latest Decisions" section renders exactly
`decisions[-12:]`: a suffix of the parsed sequence of length
`min 12 N`, oldest of those shown first, formatted as
``- `stage` -> approved``; with 15 appended entries exactly entries 4
through 15 appear, oldest-first. -/
theorem c6_truncation :
    (∀ (now w op dl : String) (arts : List String)
        (ds : List (String × String × String)), ds ≠ [] →
      render_snapshot now w op dl ds arts
          = pyJoin "\n" (render_lines now w op dl ds arts) ∧
      ∃ pre, ds = pre ++ ds.drop (ds.length - 12) ∧
        (ds.drop (ds.length - 12)).length = min 12 ds.length ∧
        ((render_lines now w op dl ds arts).drop 7).take (min 12 ds.length) =
          (ds.drop (ds.length - 12)).map
            (fun d => "- `" ++ d.2.1 ++ "` -> " ++ d.2.2)) ∧
    ((parse_decisions (runAppends none ((List.range 15).map mkSeqEntry))).length = 15 ∧
     ((render_lines "T" "W" "O" "L"
        (parse_decisions (runAppends none ((List.range 15).map mkSeqEntry))) []).drop 7).take 12 =
       (List.range 12).map
         (fun i => "- `Stage " ++ toString (i + 4) ++ "` -> Option " ++ toString (i + 4))) := by
  constructor
  · intro now w op dl arts ds hne
    have hlen : (ds.drop (ds.length - 12)).length = min 12 ds.length := by
      rw [List.length_drop]
      omega
    refine ⟨rfl, ds.take (ds.length - 12), (List.take_append_drop _ ds).symm, hlen, ?_⟩
    unfold render_lines
    rw [if_neg (by simp [List.isEmpty_iff, hne])]
    simp only [List.append_assoc]
    rw [← hlen,
      show (List.drop (ds.length - 12) ds).length =
        ((ds.drop (ds.length - 12)).map
          (fun d => "- `" ++ d.2.1 ++ "` -> " ++ d.2.2)).length from
        (List.length_map _ _).symm,
      show (7 : Nat) = (["# WGCNA Resume Snapshot", "", "Generated: " ++ now,
        "Workspace: `" ++ w ++ "`", "Decision log: `" ++ dl ++ "`", "",
        "## Latest Decisions"] : List String).length from rfl,
      List.drop_left, List.take_left]
  · exact ⟨by decide, by decide⟩

/-- Witness for C6: the truncation description applied to a concrete
two-decision sequence. -/
theorem c6_truncation_witness :
    render_snapshot "now" "w" "o" "d" [("h1", "s1", "a1"), ("h2", "s2", "a2")] []
        = pyJoin "\n" (render_lines "now" "w" "o" "d"
            [("h1", "s1", "a1"), ("h2", "s2", "a2")] []) ∧
    ∃ pre, [("h1", "s1", "a1"), ("h2", "s2", "a2")] =
        pre ++ [("h1", "s1", "a1"), ("h2", "s2", "a2")].drop
          ([("h1", "s1", "a1"), ("h2", "s2", "a2")].length - 12) ∧
      ([("h1", "s1", "a1"), ("h2", "s2", "a2")].drop
          ([("h1", "s1", "a1"), ("h2", "s2", "a2")].length - 12)).length =
        min 12 [("h1", "s1", "a1"), ("h2", "s2", "a2")].length ∧
      ((render_lines "now" "w" "o" "d" [("h1", "s1", "a1"), ("h2", "s2", "a2")] []).drop 7).take
          (min 12 [("h1", "s1", "a1"), ("h2", "s2", "a2")].length) =
        ([("h1", "s1", "a1"), ("h2", "s2", "a2")].drop
          ([("h1", "s1", "a1"), ("h2", "s2", "a2")].length - 12)).map
          (fun d => "- `" ++ d.2.1 ++ "` -> " ++ d.2.2) :=
  c6_truncation.1 "now" "w" "o" "d" []
    [("h1", "s1", "a1"), ("h2", "s2", "a2")] (by decide)
